import Mathlib

/-!
Shallow embedding of the hizawye AI cognitive core (workspace.py,
emotional_system.py, learning_tracker.py, planning_engine.py, memory.py).
Python floats are modelled as rationals; all arithmetic in the embedded
fragment is exact. Python dict insertion order is modelled explicitly.
-/

namespace Hizawye

/-- workspace.py `_clamp(value, min_value, max_value)`. -/
def clamp (value minValue maxValue : ℚ) : ℚ :=
  max minValue (min maxValue value)

/-! ## emotional_system.py -/

/-- The three pain dimensions of `EmotionalSystem.state['pain']` (0-100 scale). -/
structure PainState where
  physical : ℚ
  existential : ℚ
  frustration : ℚ
deriving DecidableEq

/-- The three curiosity dimensions of `EmotionalSystem.state['curiosity']`. -/
structure CuriosityState where
  epistemic : ℚ
  diversive : ℚ
  specific : ℚ
deriving DecidableEq

/-- The two boredom dimensions of `EmotionalSystem.state['boredom']`. -/
structure BoredomState where
  understimulation : ℚ
  satiation : ℚ
deriving DecidableEq

/-- `EmotionalSystem.state` (confidence and confusion are on a 0-1 scale). -/
structure EmotionalState where
  pain : PainState
  curiosity : CuriosityState
  boredom : BoredomState
  confidence : ℚ
  confusion : ℚ
deriving DecidableEq

/-- `EmotionalSystem.get_total_pain`: mean of the three pain dimensions. -/
def get_total_pain (s : EmotionalState) : ℚ :=
  (s.pain.physical + s.pain.existential + s.pain.frustration) / 3

/-- `EmotionalSystem.get_total_curiosity`. -/
def get_total_curiosity (s : EmotionalState) : ℚ :=
  (s.curiosity.epistemic + s.curiosity.diversive + s.curiosity.specific) / 3

/-- `EmotionalSystem.get_total_boredom`. -/
def get_total_boredom (s : EmotionalState) : ℚ :=
  (s.boredom.understimulation + s.boredom.satiation) / 2

/-- Return value of `EmotionalSystem.compute_drive_vector`. -/
structure DriveVector where
  exploration : ℚ
  focus : ℚ
  retreat : ℚ
  temperature : ℚ
  should_simplify : Bool
  should_explore : Bool
deriving DecidableEq

/-- `EmotionalSystem.compute_drive_vector`, transcribed line by line. -/
def compute_drive_vector (s : EmotionalState) : DriveVector :=
  let total_pain := get_total_pain s
  let total_boredom := get_total_boredom s
  let confidence := s.confidence
  let confusion := s.confusion
  let exploration_drive :=
    s.curiosity.diversive * (1/2) + total_boredom * (3/10) + (1 - confusion) * (1/5)
  let focus_drive :=
    s.curiosity.epistemic * (3/5) + s.curiosity.specific * (2/5) - total_pain * (3/10)
  let retreat_drive := total_pain * (7/10) + confusion * (3/10)
  let exploration_temperature0 := 3/10 + confidence * (2/5) - confusion * (3/10)
  let exploration_temperature := max (1/10) (min 1 exploration_temperature0)
  { exploration := exploration_drive
    focus := focus_drive
    retreat := retreat_drive
    temperature := exploration_temperature
    should_simplify := decide (total_pain > 60) || decide (confusion > 7/10)
    should_explore := decide (total_boredom > 70) || decide (exploration_drive > 60) }

/-- A concrete emotional state used to test the retreat-drive formula:
no pain at all, confusion 0.5. -/
def confusedState : EmotionalState :=
  { pain := { physical := 0, existential := 0, frustration := 0 }
    curiosity := { epistemic := 80, diversive := 20, specific := 50 }
    boredom := { understimulation := 0, satiation := 0 }
    confidence := 1/2
    confusion := 1/2 }

/-! ## gnw_types.py and workspace.py: data model -/

/-- A proposal or workspace-content payload dict. The fields the workspace
inspects (`concept`, `target_concept`) are explicit; `extra` models the
remaining key/value pairs. Equality of `Payload` models equality of the
canonical JSON serialization `json.dumps(payload, sort_keys=True)` used by
`Workspace._content_key` (the serialization is injective on dicts). -/
structure Payload where
  concept : Option String
  target_concept : Option String
  extra : List (String × String)
deriving DecidableEq

/-- A proposal's `content` dict: a `type` string plus a payload. -/
structure Content where
  type : String
  payload : Payload
deriving DecidableEq

/-- gnw_types.py `Proposal`. -/
structure Proposal where
  source : String
  content : Content
  evidence : ℚ
  salience : ℚ
  novelty : ℚ
  urgency : ℚ
  sources : List String
  score : Option ℚ
deriving DecidableEq

/-- `Proposal.__post_init__`: a freshly constructed proposal with no explicit
`sources` gets `sources = [source]` and `score = None`. -/
def mkProposal (source : String) (content : Content)
    (evidence salience novelty urgency : ℚ) : Proposal :=
  { source := source, content := content, evidence := evidence,
    salience := salience, novelty := novelty, urgency := urgency,
    sources := [source], score := none }

/-- gnw_types.py `WorkspaceContent`. -/
structure WorkspaceContent where
  type : String
  payload : Payload
  activation : ℚ
  ignited : Bool
  timestamp : ℚ
  sources : List String
deriving DecidableEq

/-- gnw_types.py `WorkspaceState`. -/
structure WorkspaceState where
  current : Option WorkspaceContent
  history : List WorkspaceContent
deriving DecidableEq

/-- The empty initial state `WorkspaceState()`. -/
def emptyState : WorkspaceState := { current := none, history := [] }

/-- An entry of `context["recent_actions"]`: the two keys the workspace reads. -/
structure Action where
  type : Option String
  concept : Option String
deriving DecidableEq

/-- The slice of `Workspace.context` that `cycle` reads. `attention_gain` is
`none` when the key is absent (Python `context.get` then yields the default),
and `current_focus` is `none` when absent or `None`. -/
structure Context where
  attention_gain : Option ℚ
  current_focus : Option String
  recent_actions : List Action

/-- The scoring weights dict. -/
structure Weights where
  evidence : ℚ
  salience : ℚ
  novelty : ℚ
  urgency : ℚ
deriving DecidableEq

/-- The default weights from `Workspace.__init__`. -/
def defaultWeights : Weights :=
  { evidence := 2/5, salience := 1/4, novelty := 1/5, urgency := 3/20 }

/-- The configuration parameters of `Workspace.__init__`. -/
structure Config where
  ignition_threshold : ℚ
  persistence_threshold : ℚ
  decay_rate : ℚ
  ignited_decay_rate : ℚ
  noise : ℚ
  weights : Weights
  history_limit : Nat

/-- The default configuration of `Workspace.__init__`. -/
def defaultConfig : Config :=
  { ignition_threshold := 3/4, persistence_threshold := 2/5,
    decay_rate := 9/10, ignited_decay_rate := 19/20, noise := 3/100,
    weights := defaultWeights, history_limit := 50 }

/-! ## workspace.py: aggregation -/

/-- `Workspace._content_key`: the key `(content type, canonical payload)`.
The `type` field is always present in our model, so the `"unknown"` default
of `content.get("type", "unknown")` never fires. -/
def content_key (c : Content) : String × Payload :=
  (c.type, c.payload)

/-- Append a key to the ordered key list if it is new: the key order of a
Python dict is first-insertion order. -/
def insertKey (ks : List (String × Payload)) (k : String × Payload) :
    List (String × Payload) :=
  if k ∈ ks then ks else ks ++ [k]

/-- The keys of the `buckets` dict built by `_aggregate_proposals`, in
insertion order. -/
def bucketKeys (ps : List Proposal) : List (String × Payload) :=
  ps.foldl (fun ks p => insertKey ks (content_key p.content)) []

/-- One step of the `buckets.setdefault(key, []).append(proposal)` loop. -/
def addToBuckets (buckets : List ((String × Payload) × List Proposal))
    (p : Proposal) : List ((String × Payload) × List Proposal) :=
  let k := content_key p.content
  if buckets.any (fun b => decide (b.1 = k)) then
    buckets.map (fun b => if b.1 = k then (b.1, b.2 ++ [p]) else b)
  else
    buckets ++ [(k, [p])]

/-- The `buckets` dict of `_aggregate_proposals` as an insertion-ordered
association list. -/
def mkBuckets (ps : List Proposal) : List ((String × Payload) × List Proposal) :=
  ps.foldl addToBuckets []

/-- The body of the aggregation loop of `_aggregate_proposals` for one
(nonempty) group. -/
def aggregateGroup : List Proposal → Proposal
  | [] =>
    mkProposal "" { type := "unknown", payload := { concept := none, target_concept := none, extra := [] } } 0 0 0 0
  | g@(p0 :: _) =>
    let evidence_sum := (g.map Proposal.evidence).sum
    let evidence := clamp evidence_sum 0 1
    let salience := (g.map Proposal.salience).sum / g.length
    let novelty := (g.map Proposal.novelty).sum / g.length
    let urgency := (g.map Proposal.urgency).sum / g.length
    let sources := g.map Proposal.source
    { source := if sources.length = 1 then sources.headD "" else "multi",
      content := p0.content,
      evidence := evidence, salience := salience,
      novelty := novelty, urgency := urgency,
      sources := sources, score := none }

/-- `Workspace._aggregate_proposals`. -/
def aggregate_proposals (ps : List Proposal) : List Proposal :=
  (mkBuckets ps).map (fun b => aggregateGroup b.2)

/-! ## workspace.py: scoring -/

/-- `content.payload.get("concept") == focus or
content.payload.get("target_concept") == focus` from
`Workspace._content_mentions_focus` (the `focus` argument is a string). -/
def content_mentions_focus (c : Content) (focus : String) : Bool :=
  decide (c.payload.concept = some focus) || decide (c.payload.target_concept = some focus)

/-- Python `x or y` on optional strings: `x` when it is a non-empty string,
else `y`. Used for `payload.get("concept") or payload.get("target_concept")`. -/
def pyOrStr : Option String → Option String → Option String
  | some s, y => if s = "" then y else some s
  | none, y => y

/-- The last `n` elements of a list: the Python slice `xs[-n:]` for `n ≥ 1`. -/
def lastN (n : Nat) (xs : List α) : List α :=
  xs.drop (xs.length - n)

/-- `Workspace._content_repeats`. -/
def content_repeats (c : Content) (recent_actions : List Action) : Bool :=
  if recent_actions.isEmpty then false
  else
    let concept := pyOrStr c.payload.concept c.payload.target_concept
    (lastN 3 recent_actions).any
      (fun a => decide (a.type = some c.type) && decide (a.concept = concept))

/-- The body of the scoring loop of `Workspace._score_proposals` for one
proposal; `noiseDraw` is the value drawn by
`random.uniform(-self.noise, self.noise)` (exactly `0` when `noise = 0`). -/
def score_proposal (w : Weights) (noiseDraw : ℚ) (ctx : Context)
    (p : Proposal) : Proposal :=
  let attention_gain := clamp (ctx.attention_gain.getD 1) (1/2) (3/2)
  let base_score :=
    w.evidence * p.evidence + w.salience * p.salience
      + w.novelty * p.novelty + w.urgency * p.urgency
  let focus_bonus : ℚ :=
    match ctx.current_focus with
    | some f =>
      if f = "" then 0
      else if content_mentions_focus p.content f then 1/10 else 0
    | none => 0
  let repetition_penalty : ℚ :=
    if content_repeats p.content ctx.recent_actions then 1/10 else 0
  { p with score := some (clamp
      ((base_score + focus_bonus - repetition_penalty + noiseDraw) * attention_gain)
      0 (3/2)) }

/-- The scoring loop of `_score_proposals`: proposal `i` receives the `i`-th
noise draw. -/
def score_proposals_aux (w : Weights) (ctx : Context) (draw : Nat → ℚ) :
    Nat → List Proposal → List Proposal
  | _, [] => []
  | i, p :: ps =>
    score_proposal w (draw i) ctx p :: score_proposals_aux w ctx draw (i + 1) ps

/-- `Workspace._score_proposals` with the random draws made explicit. -/
def score_proposals (w : Weights) (ctx : Context) (draw : Nat → ℚ)
    (ps : List Proposal) : List Proposal :=
  score_proposals_aux w ctx draw 0 ps

/-- `p.score or 0.0` used when ranking scored proposals. -/
def scoreOrZero (p : Proposal) : ℚ :=
  p.score.getD 0

/-- Python `max(xs, key=f)`: the first element attaining the maximal key
(later elements replace the best seen so far only on a strictly larger key);
`none` on the empty list. -/
def pyMaxBy (f : α → ℚ) : List α → Option α
  | [] => none
  | x :: xs => some (xs.foldl (fun best y => if f best < f y then y else best) x)

/-! ## workspace.py: ignition, decay, cycle -/

/-- The Python slice `xs[-n:]`: for `n = 0` it is the whole list (`xs[-0:]`
is `xs[0:]`), otherwise the last `n` elements. Used for the history window. -/
def pySliceLast (n : Nat) (xs : List α) : List α :=
  if n = 0 then xs else xs.drop (xs.length - n)

/-- `Workspace._ignite`: build the ignited content, set it as current and
append it to the (windowed) history. Returns the content and the new state. -/
def ignite (cfg : Config) (now : ℚ) (st : WorkspaceState) (p : Proposal) :
    WorkspaceContent × WorkspaceState :=
  let content : WorkspaceContent :=
    { type := p.content.type
      payload := p.content.payload
      activation := clamp (scoreOrZero p) 0 (3/2)
      ignited := true
      timestamp := now
      sources := p.sources }
  let history0 := st.history ++ [content]
  let history :=
    if history0.length > cfg.history_limit then pySliceLast cfg.history_limit history0
    else history0
  (content, { current := some content, history := history })

/-- `Workspace._decay_and_persist`. Returns the persisted content (if any)
and the new state. -/
def decay_and_persist (cfg : Config) (st : WorkspaceState) :
    Option WorkspaceContent × WorkspaceState :=
  match st.current with
  | none => (none, st)
  | some c =>
    let rate := if c.ignited then cfg.ignited_decay_rate else cfg.decay_rate
    let activation := c.activation * rate
    if activation < cfg.persistence_threshold then
      (none, { st with current := none })
    else
      let c2 : WorkspaceContent := { c with activation := activation, ignited := false }
      (some c2, { st with current := some c2 })

/-- The scored, aggregated proposals a cycle ranks (`scored` in
`Workspace.cycle`). -/
def scoredOf (cfg : Config) (ctx : Context) (draw : Nat → ℚ)
    (proposals : List Proposal) : List Proposal :=
  score_proposals cfg.weights ctx draw (aggregate_proposals proposals)

/-- The observable outcome of one `Workspace.cycle` call: the returned value,
the contents passed to `_broadcast` (in order), and the state afterwards. -/
structure CycleOut where
  output : Option WorkspaceContent
  broadcasts : List WorkspaceContent
  state : WorkspaceState
deriving DecidableEq

/-- `Workspace.cycle` from the point where proposals have been collected
(module `tick`s have already updated `ctx`, and `proposals` is the result of
`_collect_proposals`): aggregate, score, pick the winner with `max`, ignite
when the winner reaches the threshold, otherwise decay-and-persist. -/
def cycleFrom (cfg : Config) (ctx : Context) (draw : Nat → ℚ) (now : ℚ)
    (proposals : List Proposal) (st : WorkspaceState) : CycleOut :=
  let scored := scoredOf cfg ctx draw proposals
  let winnerIgnites : Option Proposal :=
    match pyMaxBy scoreOrZero scored with
    | some winner =>
      if cfg.ignition_threshold ≤ scoreOrZero winner then some winner else none
    | none => none
  match winnerIgnites with
  | some winner =>
    let ign := ignite cfg now st winner
    { output := some ign.1, broadcasts := [ign.1], state := ign.2 }
  | none =>
    let d := decay_and_persist cfg st
    { output := d.1, broadcasts := d.1.toList, state := d.2 }

/-! ## workspace.py: proposal collection from modules

A module's `produce_proposals` is arbitrary Python code and may raise; we
model it as a function returning `Except` (an `error` models a raised
exception). `Workspace._collect_proposals` calls it with no exception
handler, so an error propagates. -/

/-- A GNW module, reduced to its `produce_proposals` behaviour on the
current context. -/
structure PyModule where
  produce_proposals : Context → Except String (List Proposal)

/-- `Workspace._collect_proposals`: extend the list with each module's
proposals in order; there is no `try`/`except`, so the first raising module
aborts collection with its exception. -/
def collect_proposals (mods : List PyModule) (ctx : Context) :
    Except String (List Proposal) :=
  match mods with
  | [] => Except.ok []
  | m :: ms =>
    match m.produce_proposals ctx with
    | Except.error e => Except.error e
    | Except.ok ps =>
      match collect_proposals ms ctx with
      | Except.error e => Except.error e
      | Except.ok rest => Except.ok (ps ++ rest)

/-- `Workspace.cycle` including proposal collection: a raised module
exception propagates out of the cycle. -/
def cycleWithModules (cfg : Config) (ctx : Context) (draw : Nat → ℚ)
    (now : ℚ) (mods : List PyModule) (st : WorkspaceState) :
    Except String CycleOut :=
  match collect_proposals mods ctx with
  | Except.error e => Except.error e
  | Except.ok ps => Except.ok (cycleFrom cfg ctx draw now ps st)

/-! ## string helpers (Python `in`, `split`, `strip`, `lower`)

Implemented on `List Char` by structural recursion so that concrete
instances evaluate by `decide`. -/

/-- `leadsWith needle xs`: `needle` is an initial segment of `xs`. -/
def leadsWith : List Char → List Char → Bool
  | [], _ => true
  | _ :: _, [] => false
  | a :: as, b :: bs => a == b && leadsWith as bs

/-- Python `needle in haystack` (substring containment). -/
def containsSub (needle : List Char) : List Char → Bool
  | [] => needle.isEmpty
  | c :: cs => leadsWith needle (c :: cs) || containsSub needle cs

/-- Python `needle in haystack` on strings. -/
def pyIn (needle haystack : String) : Bool :=
  containsSub needle.data haystack.data

/-- The suffix after the last occurrence of `sep`, `none` when `sep` does not
occur. `"</think>"` never overlaps itself, so for that separator this equals
Python `haystack.split(sep)[-1]`. -/
def afterLast (sep : List Char) : List Char → Option (List Char)
  | [] => none
  | c :: cs =>
    match afterLast sep cs with
    | some r => some r
    | none => if leadsWith sep (c :: cs) then some ((c :: cs).drop sep.length) else none

/-- Python `str.strip()`: drop whitespace from both ends. -/
def trimData (cs : List Char) : List Char :=
  ((cs.dropWhile Char.isWhitespace).reverse.dropWhile Char.isWhitespace).reverse

/-- Helper for Python `str.split()` with no argument: accumulate the current
word (reversed) and split on whitespace runs, dropping empty pieces. -/
def wordsAux : List Char → List Char → List (List Char)
  | [], cur => if cur.isEmpty then [] else [cur.reverse]
  | c :: cs, cur =>
    if c.isWhitespace then
      if cur.isEmpty then wordsAux cs [] else cur.reverse :: wordsAux cs []
    else wordsAux cs (c :: cur)

/-- Python `s.split()` (whitespace runs, no empty pieces). -/
def pyWords (s : String) : List (List Char) :=
  wordsAux s.data []

/-- Python `s.lower()` (character-wise; the denylist phrases are ASCII). -/
def lowerData (s : String) : List Char :=
  s.data.map Char.toLower

/-! ## planning_engine.py: definition-result processing -/

/-- `PlanningEngine._extract_final_thought`: if `"</think>"` occurs, take the
text after the last occurrence and strip it; fall back to the whole response
when the stripped text is empty or the tag does not occur. -/
def extract_final_thought (llm_response : String) : String :=
  match afterLast "</think>".data llm_response.data with
  | some tail =>
    let clean := trimData tail
    if clean.isEmpty then llm_response else ⟨clean⟩
  | none => llm_response

/-- The `invalid_phrases` list of `_process_definition_result`. -/
def invalid_phrases : List String :=
  ["system instruction", "your task", "your output", "define the concept",
   "direct fulfillment", "echo instructions", "first-person realization",
   "example:", "as a thought synthesizer"]

/-- The full fixed denylist checked by `_process_definition_result`:
`"i feel disconnected"` (checked separately in the code) plus
`invalid_phrases`. -/
def denylist : List String :=
  "i feel disconnected" :: invalid_phrases

/-- The result dict of `_process_definition_result`. -/
inductive DefResult where
  | ok : String → DefResult
  | malformed : String → DefResult
deriving DecidableEq

/-- The `(success, result, pain_delta)` triple returned by
`_process_definition_result`. -/
structure DefOutcome where
  success : Bool
  result : DefResult
  pain_delta : ℚ
deriving DecidableEq

/-- `PlanningEngine._process_definition_result` (a total function of the
response string; the concept and strategy only feed log messages). -/
def process_definition_result (llm_response : String) : DefOutcome :=
  let clean_thought := extract_final_thought llm_response
  let lower := lowerData clean_thought
  let is_invalid :=
    containsSub "i feel disconnected".data lower
      || invalid_phrases.any (fun p => containsSub p.data lower)
      || decide (300 < clean_thought.data.length)
      || decide ((pyWords clean_thought).length < 4)
  if is_invalid then
    { success := false, result := DefResult.malformed llm_response, pain_delta := 25 }
  else
    { success := true, result := DefResult.ok clean_thought, pain_delta := -20 }

/-! ## learning_tracker.py -/

/-- One value of the `strategy_results` defaultdict (the `contexts` log is
not consulted by any embedded function). -/
structure StrategyStats where
  attempts : Nat
  successes : Nat
  failures : Nat
  avg_pain : ℚ
  total_pain : ℚ
deriving DecidableEq

/-- One value of the `concept_difficulty` defaultdict. -/
structure ConceptStats where
  attempts : Nat
  successes : Nat
  best_strategy : Option String
  failed_strategies : List String
deriving DecidableEq

/-- The learning-tracker state. `strategy_results` is a defaultdict, so
lookup is total (absent keys read as zeroed stats); `concept_difficulty` is
read with `.get`, which returns `None` on absent keys. -/
structure LearningTracker where
  strategy_results : String → StrategyStats
  concept_difficulty : String → Option ConceptStats

/-- `LearningTracker.get_strategy_score`. -/
def get_strategy_score (lt : LearningTracker) (strategy : String) : ℚ :=
  let stats := lt.strategy_results strategy
  if stats.attempts = 0 then 1/2
  else
    let success_rate := (stats.successes : ℚ) / (stats.attempts : ℚ)
    let pain_penalty := min 1 (stats.avg_pain / 100)
    success_rate * (7/10) + (1 - pain_penalty) * (3/10)

/-- The score the `recommend_strategy` fallback loop assigns to one
strategy: base score, pain adjustment, failed-strategy penalty, clamped to
`[0, 1]`. -/
def adjusted_score (lt : LearningTracker) (concept : String)
    (current_pain : ℚ) (strategy : String) : ℚ :=
  let base0 := get_strategy_score lt strategy
  let base1 :=
    if 60 < current_pain then
      if pyIn "direct" strategy || pyIn "simple" strategy then base0 + 1/5
      else if pyIn "complex" strategy || pyIn "synthesis" strategy then base0 - 1/5
      else base0
    else base0
  let base2 :=
    match lt.concept_difficulty concept with
    | some cs => if strategy ∈ cs.failed_strategies then base1 - 3/10 else base1
    | none => base1
  max 0 (min 1 base2)

/-- First-occurrence deduplication: the key order of the `strategy_scores`
dict built over `available_strategies`. -/
def dedupFirst (xs : List String) : List String :=
  xs.foldl (fun acc x => if x ∈ acc then acc else acc ++ [x]) []

/-- `LearningTracker.recommend_strategy`. The early return fires when the
concept has stats with a truthy (non-`None`, non-empty) `best_strategy` that
is among the candidates; otherwise the scored fallback picks the first
maximal candidate (Python `max` over the dict keys). -/
def recommend_strategy (lt : LearningTracker) (concept : String)
    (available_strategies : List String) (current_pain : ℚ) : Option String :=
  let bestHit : Option String :=
    match lt.concept_difficulty concept with
    | some cs =>
      match cs.best_strategy with
      | some best =>
        if best = "" then none
        else if best ∈ available_strategies then some best else none
      | none => none
    | none => none
  match bestHit with
  | some b => some b
  | none =>
    pyMaxBy (adjusted_score lt concept current_pain) (dedupFirst available_strategies)

/-! ## memory.py: working memory -/

/-- `HizawyeMemory.update_working_memory` acting on the working-memory list
(most recent first): move-to-front on re-access, insert at the front, pop
the last entry when over capacity. -/
def update_working_memory (capacity : Nat) (wm : List String)
    (concept : String) : List String :=
  let wm1 := if concept ∈ wm then wm.erase concept else wm
  let wm2 := concept :: wm1
  if capacity < wm2.length then wm2.dropLast else wm2

/-- `HizawyeMemory.working_memory_capacity`. -/
def working_memory_capacity : Nat := 7

/-- Sequential insertion of a list of concepts into working memory
(`get_working_memory_concepts` returns the list unchanged). -/
def insert_concepts (capacity : Nat) (wm : List String)
    (cs : List String) : List String :=
  cs.foldl (update_working_memory capacity) wm

/-! ## spec-side predicates (stated from the claim wording) -/

/-- The claim-side focus condition: the payload references the current focus
concept under the key `concept` or `target_concept`. -/
def mentionsFocusProp (ctx : Context) (p : Proposal) : Prop :=
  ∃ f, ctx.current_focus = some f ∧
    (p.content.payload.concept = some f ∨ p.content.payload.target_concept = some f)

/-- The claim-side repetition condition: an identical (type, concept) pair
appears among the last 3 recorded actions (the proposal's concept being the
payload's `concept`, falling back to `target_concept`). -/
def repeatsProp (ctx : Context) (p : Proposal) : Prop :=
  ∃ a ∈ lastN 3 ctx.recent_actions,
    a.type = some p.content.type ∧
    a.concept = pyOrStr p.content.payload.concept p.content.payload.target_concept

/-- The members of proposal list `ps` whose content key is `k`, in order:
the claim-side description of one aggregation group. -/
def groupOf (ps : List Proposal) (k : String × Payload) : List Proposal :=
  ps.filter (fun p => decide (content_key p.content = k))

/-! ## concrete fixtures -/

/-- An empty payload. -/
def emptyPayload : Payload :=
  { concept := none, target_concept := none, extra := [] }

/-- A context with attention gain 1, no focus and no recent actions. -/
def ctx0 : Context :=
  { attention_gain := some 1, current_focus := none, recent_actions := [] }

/-- The single proposal of the worked spec example: evidence 1.0,
salience 1.0, novelty 0.5, urgency 0.5. -/
def pEx : Proposal :=
  mkProposal "Test" { type := "goal_execute", payload := emptyPayload } 1 1 (1/2) (1/2)

/-- Two same-key proposals with evidence 0.6 each (the clamped-sum example). -/
def pDupA : Proposal :=
  mkProposal "ModuleA" { type := "explore", payload := emptyPayload } (3/5) (1/2) (1/2) (1/2)

/-- Second proposal with the same content key as `pDupA`. -/
def pDupB : Proposal :=
  mkProposal "ModuleB" { type := "explore", payload := emptyPayload } (3/5) (1/2) (1/2) (1/2)

/-- A module whose `produce_proposals` raises. -/
def raisingModule : PyModule :=
  { produce_proposals := fun _ => Except.error "boom" }

/-- A well-behaved module producing the example proposal. -/
def okModule : PyModule :=
  { produce_proposals := fun _ => Except.ok [pEx] }

/-- An ignited content with activation 1. -/
def contentActive : WorkspaceContent :=
  { type := "explore", payload := emptyPayload, activation := 1,
    ignited := true, timestamp := 0, sources := ["Test"] }

/-- A workspace state holding an ignited content with activation 1. -/
def stActive : WorkspaceState :=
  { current := some contentActive, history := [] }

/-- Concept stats with a recorded best strategy, for the recommendation
fixture. -/
def csEx : ConceptStats :=
  { attempts := 3, successes := 1, best_strategy := some "direct_definition",
    failed_strategies := ["analogy"] }

/-- A learning tracker knowing one concept with a recorded best strategy. -/
def ltEx : LearningTracker :=
  { strategy_results := fun _ =>
      { attempts := 0, successes := 0, failures := 0, avg_pain := 0, total_pain := 0 },
    concept_difficulty := fun c => if c = "recursion" then some csEx else none }

/-- A valid definition response for the classifier fixture. -/
def defRespEx : String :=
  "A stack is a collection with last in first out access."

/-- What `pEx` becomes after aggregation and zero-noise scoring:
score 0.40 + 0.25 + 0.20*0.5 + 0.15*0.5 = 0.825 = 33/40. -/
def pExScored : Proposal :=
  { source := "Test", content := { type := "goal_execute", payload := emptyPayload },
    evidence := 1, salience := 1, novelty := 1/2, urgency := 1/2,
    sources := ["Test"], score := some (33/40) }

/-- The content ignited from `pEx` at time 0. -/
def cExIgnited : WorkspaceContent :=
  { type := "goal_execute", payload := emptyPayload, activation := 33/40,
    ignited := true, timestamp := 0, sources := ["Test"] }

/-! ## general lemmas -/

theorem clamp_mem (v lo hi : ℚ) (h : lo ≤ hi) :
    lo ≤ clamp v lo hi ∧ clamp v lo hi ≤ hi :=
  ⟨le_max_left _ _, max_le h (min_le_left _ _)⟩

theorem clamp_eq_self (v lo hi : ℚ) (h1 : lo ≤ v) (h2 : v ≤ hi) :
    clamp v lo hi = v := by
  unfold clamp
  rw [min_eq_right h2, max_eq_right h1]

theorem pyMaxBy_eq_none_iff (f : α → ℚ) (xs : List α) :
    pyMaxBy f xs = none ↔ xs = [] := by
  cases xs <;> simp [pyMaxBy]

theorem foldl_pyMax_mem (f : α → ℚ) (xs : List α) (x : α) :
    xs.foldl (fun best y => if f best < f y then y else best) x = x
      ∨ xs.foldl (fun best y => if f best < f y then y else best) x ∈ xs := by
  induction xs generalizing x with
  | nil => exact Or.inl rfl
  | cons y ys ih =>
    simp only [List.foldl_cons]
    rcases ih (if f x < f y then y else x) with h | h
    · by_cases hxy : f x < f y
      · rw [h, if_pos hxy]
        exact Or.inr (List.mem_cons_self _ _)
      · rw [h, if_neg hxy]
        exact Or.inl rfl
    · exact Or.inr (List.mem_cons_of_mem _ h)

theorem foldl_pyMax_le (f : α → ℚ) (xs : List α) (x : α) :
    f x ≤ f (xs.foldl (fun best y => if f best < f y then y else best) x)
      ∧ ∀ y ∈ xs, f y ≤ f (xs.foldl (fun best y => if f best < f y then y else best) x) := by
  induction xs generalizing x with
  | nil =>
    refine ⟨le_refl _, fun y hy => absurd hy (List.not_mem_nil y)⟩
  | cons y ys ih =>
    simp only [List.foldl_cons]
    obtain ⟨h1, h2⟩ := ih (if f x < f y then y else x)
    constructor
    · refine le_trans ?_ h1
      by_cases hxy : f x < f y
      · rw [if_pos hxy]
        exact le_of_lt hxy
      · rw [if_neg hxy]
    · intro z hz
      rcases List.mem_cons.mp hz with rfl | hz
      · refine le_trans ?_ h1
        by_cases hxy : f x < f z
        · rw [if_pos hxy]
        · rw [if_neg hxy]
          exact le_of_not_lt hxy
      · exact h2 z hz

theorem pyMaxBy_mem (f : α → ℚ) (xs : List α) (m : α)
    (h : pyMaxBy f xs = some m) : m ∈ xs := by
  cases xs with
  | nil => simp [pyMaxBy] at h
  | cons x xs =>
    simp only [pyMaxBy, Option.some.injEq] at h
    subst h
    rcases foldl_pyMax_mem f xs x with h | h
    · rw [h]
      exact List.mem_cons_self _ _
    · exact List.mem_cons_of_mem _ h

theorem pyMaxBy_le (f : α → ℚ) (xs : List α) (m : α)
    (h : pyMaxBy f xs = some m) : ∀ y ∈ xs, f y ≤ f m := by
  cases xs with
  | nil =>
    intro y hy
    exact absurd hy (List.not_mem_nil y)
  | cons x xs =>
    simp only [pyMaxBy, Option.some.injEq] at h
    subst h
    intro y hy
    rcases List.mem_cons.mp hy with rfl | hy
    · exact (foldl_pyMax_le f xs y).1
    · exact (foldl_pyMax_le f xs x).2 y hy

theorem score_proposals_aux_eq_map (w : Weights) (ctx : Context)
    (draw : Nat → ℚ) (hdraw : ∀ i, draw i = 0) (i : Nat) (ps : List Proposal) :
    score_proposals_aux w ctx draw i ps = ps.map (score_proposal w 0 ctx) := by
  induction ps generalizing i with
  | nil => rfl
  | cons p ps ih =>
    simp only [score_proposals_aux, List.map_cons, hdraw i]
    rw [ih (i + 1)]

theorem score_mem_bounds_aux (w : Weights) (ctx : Context) (draw : Nat → ℚ)
    (i : Nat) (ps : List Proposal) (p : Proposal)
    (hp : p ∈ score_proposals_aux w ctx draw i ps) :
    ∃ v, p.score = some v ∧ 0 ≤ v ∧ v ≤ 3/2 := by
  induction ps generalizing i with
  | nil => exact absurd hp (List.not_mem_nil p)
  | cons q qs ih =>
    simp only [score_proposals_aux, List.mem_cons] at hp
    rcases hp with rfl | hp
    · refine ⟨_, rfl, ?_⟩
      exact clamp_mem _ 0 (3/2) (by norm_num)
    · exact ih (i + 1) hp

theorem score_mem_bounds (w : Weights) (ctx : Context) (draw : Nat → ℚ)
    (ps : List Proposal) (p : Proposal) (hp : p ∈ score_proposals w ctx draw ps) :
    ∃ v, p.score = some v ∧ 0 ≤ v ∧ v ≤ 3/2 :=
  score_mem_bounds_aux w ctx draw 0 ps p hp

theorem scoreOrZero_bounds (w : Weights) (ctx : Context) (draw : Nat → ℚ)
    (ps : List Proposal) (p : Proposal) (hp : p ∈ score_proposals w ctx draw ps) :
    0 ≤ scoreOrZero p ∧ scoreOrZero p ≤ 3/2 := by
  obtain ⟨v, hv, h0, h1⟩ := score_mem_bounds w ctx draw ps p hp
  rw [scoreOrZero, hv]
  exact ⟨h0, h1⟩

/-! ## the claims -/

/-- C6 counterexample: with zero pain and confusion 0.5 the code computes
`retreat = 0.15`, not the claimed `0.7·pain + 0.3·confusion·100 = 15`: the
code never rescales confusion to the 0-100 pain scale. -/
theorem C6_counterexample :
    (compute_drive_vector confusedState).retreat
      ≠ 7/10 * get_total_pain confusedState
          + 3/10 * confusedState.confusion * 100 := by
  simp only [compute_drive_vector, get_total_pain, confusedState]
  norm_num

/-- C6 (amended): the drive vector's retreat component equals 0.7 times the
aggregate pain (mean of the three pain dimensions) plus 0.3 times confusion,
with confusion taken on its native 0-1 scale (no rescaling by 100). -/
theorem C6_retreat_formula (s : EmotionalState) :
    (compute_drive_vector s).retreat
      = 7/10 * ((s.pain.physical + s.pain.existential + s.pain.frustration) / 3)
        + 3/10 * s.confusion := by
  simp only [compute_drive_vector, get_total_pain]
  ring

/-- C7: whenever the tracker has concept stats with a recorded (non-empty)
best strategy that is among the candidate strategies, `recommend_strategy`
returns it immediately, for every candidate set, every `strategy_results`
table and every current pain value. -/
theorem C7_recommend_best (lt : LearningTracker) (concept : String)
    (available : List String) (current_pain : ℚ) (cs : ConceptStats) (b : String)
    (hcs : lt.concept_difficulty concept = some cs)
    (hb : cs.best_strategy = some b) (hb2 : b ≠ "") (hmem : b ∈ available) :
    recommend_strategy lt concept available current_pain = some b := by
  unfold recommend_strategy
  simp only [hcs, hb, if_neg hb2, if_pos hmem]

/-- C7 witness: a tracker that recorded `direct_definition` as best for
`recursion` recommends it from a candidate set that contains it, at pain 80. -/
theorem C7_recommend_best_witness :
    ltEx.concept_difficulty "recursion" = some csEx
    ∧ csEx.best_strategy = some "direct_definition"
    ∧ "direct_definition" ≠ ""
    ∧ "direct_definition" ∈ ["analogy", "direct_definition"]
    ∧ recommend_strategy ltEx "recursion" ["analogy", "direct_definition"] 80
        = some "direct_definition" := by
  refine ⟨by decide, rfl, by decide, by decide, ?_⟩
  exact C7_recommend_best ltEx "recursion" _ 80 csEx "direct_definition"
    (by decide) rfl (by decide) (by decide)

/-- C5 counterexample: with a raising module followed by a module producing
an ignitable proposal, `cycle` does not continue with the remaining module's
proposals: the exception propagates out of the cycle. -/
theorem C5_counterexample :
    cycleWithModules defaultConfig ctx0 (fun _ => 0) 0
        [raisingModule, okModule] emptyState
      = Except.error "boom" := rfl

theorem collect_proposals_error (ctx : Context) (ms1 ms2 : List PyModule)
    (m : PyModule) (e : String)
    (hok : ∀ m2 ∈ ms1, ∃ ps, m2.produce_proposals ctx = Except.ok ps)
    (herr : m.produce_proposals ctx = Except.error e) :
    collect_proposals (ms1 ++ m :: ms2) ctx = Except.error e := by
  induction ms1 with
  | nil =>
    simp only [List.nil_append, collect_proposals, herr]
  | cons m0 ms1 ih =>
    obtain ⟨ps0, hps0⟩ := hok m0 (List.mem_cons_self _ _)
    have ih2 := ih (fun m2 hm2 => hok m2 (List.mem_cons_of_mem _ hm2))
    simp only [List.cons_append, collect_proposals, hps0, List.append_eq, ih2]

/-- C5 (amended): a module exception is not caught: when every module before
`m` returns normally and `m` raises, the exception propagates out of
`Workspace.cycle` and the remaining modules' proposals are never processed.
Only modules that return an empty list are skipped harmlessly. -/
theorem C5_exception_propagates (cfg : Config) (ctx : Context) (draw : Nat → ℚ)
    (now : ℚ) (st : WorkspaceState) (ms1 ms2 : List PyModule) (m : PyModule)
    (e : String)
    (hok : ∀ m2 ∈ ms1, ∃ ps, m2.produce_proposals ctx = Except.ok ps)
    (herr : m.produce_proposals ctx = Except.error e) :
    cycleWithModules cfg ctx draw now (ms1 ++ m :: ms2) st = Except.error e := by
  unfold cycleWithModules
  rw [collect_proposals_error ctx ms1 ms2 m e hok herr]

/-- C5 witness: one well-behaved module, then a raising one; the cycle call
evaluates to the propagated exception. -/
theorem C5_exception_propagates_witness :
    okModule.produce_proposals ctx0 = Except.ok [pEx]
    ∧ raisingModule.produce_proposals ctx0 = Except.error "boom"
    ∧ cycleWithModules defaultConfig ctx0 (fun _ => 0) 0
        [okModule, raisingModule] emptyState = Except.error "boom" := by
  refine ⟨rfl, rfl, ?_⟩
  refine C5_exception_propagates defaultConfig ctx0 (fun _ => 0) 0 emptyState
    [okModule] [] raisingModule "boom" ?_ rfl
  intro m2 hm2
  rw [List.mem_singleton] at hm2
  subst hm2
  exact ⟨[pEx], rfl⟩

/-- C8: a definition response is classified as a success exactly when the
extracted stripped text is at most 300 characters, has at least 4 words and
contains no denylisted phrase (checked on the lowercased text); success
yields pain delta -20 and failure +25. The classifier is a total function of
the response string, so no input makes it raise. -/
theorem C8_definition_classifier (llm_response : String) :
    ((process_definition_result llm_response).success = true ↔
      ((extract_final_thought llm_response).data.length ≤ 300
        ∧ 4 ≤ (pyWords (extract_final_thought llm_response)).length
        ∧ ∀ phrase ∈ denylist,
            containsSub phrase.data (lowerData (extract_final_thought llm_response)) = false))
    ∧ ((process_definition_result llm_response).success = true →
        (process_definition_result llm_response).pain_delta = -20)
    ∧ ((process_definition_result llm_response).success = false →
        (process_definition_result llm_response).pain_delta = 25) := by
  simp only [process_definition_result]
  split
  case isTrue hinv =>
    simp only [Bool.or_eq_true, List.any_eq_true, decide_eq_true_eq] at hinv
    refine ⟨?_, ?_, fun _ => rfl⟩
    · constructor
      · intro h
        exact absurd h (by simp)
      · rintro ⟨h300, h4, hph⟩
        exfalso
        rcases hinv with ((hA | hB) | hC) | hD
        · have := hph "i feel disconnected" (by simp [denylist])
          rw [this] at hA
          exact Bool.false_ne_true hA
        · obtain ⟨p, hp, hp2⟩ := hB
          have := hph p (by simp only [denylist, List.mem_cons]; exact Or.inr hp)
          rw [this] at hp2
          exact Bool.false_ne_true hp2
        · omega
        · omega
    · intro h
      exact absurd h (by simp)
  case isFalse hinv =>
    simp only [Bool.or_eq_true, List.any_eq_true, decide_eq_true_eq, not_or,
      not_exists, not_and, not_lt] at hinv
    obtain ⟨⟨⟨hA, hB⟩, hC⟩, hD⟩ := hinv
    refine ⟨?_, fun _ => rfl, ?_⟩
    · constructor
      · intro _
        refine ⟨hC, hD, ?_⟩
        intro phrase hphrase
        rcases List.mem_cons.mp hphrase with rfl | hphrase
        · exact Bool.not_eq_true _ |>.mp hA
        · exact Bool.not_eq_true _ |>.mp (hB phrase hphrase)
      · intro _
        rfl
    · intro h
      exact absurd h (by simp)

/-- C8 witness: a well-formed definition is accepted with pain delta -20. -/
theorem C8_definition_classifier_witness :
    (process_definition_result defRespEx).success = true
    ∧ (process_definition_result defRespEx).pain_delta = -20 := by
  have h := C8_definition_classifier defRespEx
  have hs : (process_definition_result defRespEx).success = true :=
    h.1.mpr (by decide)
  exact ⟨hs, h.2.1 hs⟩

theorem update_fresh (capacity : Nat) (wm : List String) (x : String)
    (hx : x ∉ wm) (hlen : wm.length < capacity) :
    update_working_memory capacity wm x = x :: wm := by
  simp only [update_working_memory, if_neg hx]
  rw [if_neg]
  simp only [List.length_cons, not_lt]
  omega

theorem update_fresh_evict (capacity : Nat) (wm : List String) (x : String)
    (hx : x ∉ wm) (hlen : capacity ≤ wm.length) :
    update_working_memory capacity wm x = (x :: wm).dropLast := by
  simp only [update_working_memory, if_neg hx]
  rw [if_pos]
  simp only [List.length_cons]
  omega

/-- C9: inserting 8 pairwise-distinct concepts into an empty working memory
of capacity 7 evicts the first-inserted concept, leaves exactly 7 concepts,
and puts the most recently inserted concept first. -/
theorem C9_working_memory (a b c d e f g h : String)
    (hnd : ([a, b, c, d, e, f, g, h] : List String).Nodup) :
    insert_concepts working_memory_capacity [] [a, b, c, d, e, f, g, h]
        = [h, g, f, e, d, c, b]
    ∧ a ∉ insert_concepts working_memory_capacity [] [a, b, c, d, e, f, g, h]
    ∧ (insert_concepts working_memory_capacity [] [a, b, c, d, e, f, g, h]).length = 7
    ∧ (insert_concepts working_memory_capacity [] [a, b, c, d, e, f, g, h]).head?
        = some h := by
  simp only [List.nodup_cons, List.mem_cons, List.not_mem_nil, or_false,
    not_or, List.nodup_nil, and_true] at hnd
  obtain ⟨⟨hab, hac, had, hae, haf, hag, hah⟩,
    ⟨hbc, hbd, hbe, hbf, hbg, hbh⟩, ⟨hcd, hce, hcf, hcg, hch⟩,
    ⟨hde, hdf, hdg, hdh⟩, ⟨hef, heg, heh⟩, ⟨hfg, hfh⟩, hgh, -⟩ := hnd
  have h1 : update_working_memory 7 [] a = [a] :=
    update_fresh 7 [] a (List.not_mem_nil a) (by simp)
  have h2 : update_working_memory 7 [a] b = [b, a] := by
    refine update_fresh 7 [a] b ?_ (by simp)
    simp only [List.mem_cons, List.not_mem_nil, or_false]
    exact Ne.symm hab
  have h3 : update_working_memory 7 [b, a] c = [c, b, a] := by
    refine update_fresh 7 [b, a] c ?_ (by simp)
    simp only [List.mem_cons, List.not_mem_nil, or_false, not_or]
    exact ⟨Ne.symm hbc, Ne.symm hac⟩
  have h4 : update_working_memory 7 [c, b, a] d = [d, c, b, a] := by
    refine update_fresh 7 [c, b, a] d ?_ (by simp)
    simp only [List.mem_cons, List.not_mem_nil, or_false, not_or]
    exact ⟨Ne.symm hcd, Ne.symm hbd, Ne.symm had⟩
  have h5 : update_working_memory 7 [d, c, b, a] e = [e, d, c, b, a] := by
    refine update_fresh 7 [d, c, b, a] e ?_ (by simp)
    simp only [List.mem_cons, List.not_mem_nil, or_false, not_or]
    exact ⟨Ne.symm hde, Ne.symm hce, Ne.symm hbe, Ne.symm hae⟩
  have h6 : update_working_memory 7 [e, d, c, b, a] f = [f, e, d, c, b, a] := by
    refine update_fresh 7 [e, d, c, b, a] f ?_ (by simp)
    simp only [List.mem_cons, List.not_mem_nil, or_false, not_or]
    exact ⟨Ne.symm hef, Ne.symm hdf, Ne.symm hcf, Ne.symm hbf, Ne.symm haf⟩
  have h7 : update_working_memory 7 [f, e, d, c, b, a] g = [g, f, e, d, c, b, a] := by
    refine update_fresh 7 [f, e, d, c, b, a] g ?_ (by simp)
    simp only [List.mem_cons, List.not_mem_nil, or_false, not_or]
    exact ⟨Ne.symm hfg, Ne.symm heg, Ne.symm hdg, Ne.symm hcg, Ne.symm hbg, Ne.symm hag⟩
  have h8 : update_working_memory 7 [g, f, e, d, c, b, a] h = [h, g, f, e, d, c, b] := by
    have hmem : h ∉ ([g, f, e, d, c, b, a] : List String) := by
      simp only [List.mem_cons, List.not_mem_nil, or_false, not_or]
      exact ⟨Ne.symm hgh, Ne.symm hfh, Ne.symm heh, Ne.symm hdh, Ne.symm hch,
        Ne.symm hbh, Ne.symm hah⟩
    rw [update_fresh_evict 7 [g, f, e, d, c, b, a] h hmem (by simp)]
    rfl
  have key : insert_concepts working_memory_capacity [] [a, b, c, d, e, f, g, h]
      = [h, g, f, e, d, c, b] := by
    simp only [insert_concepts, working_memory_capacity, List.foldl_cons,
      List.foldl_nil, h1, h2, h3, h4, h5, h6, h7, h8]
  refine ⟨key, ?_, by rw [key]; rfl, by rw [key]; rfl⟩
  rw [key]
  simp only [List.mem_cons, List.not_mem_nil, or_false, not_or]
  exact ⟨hah, hag, haf, hae, had, hac, hab⟩

/-- C9 witness: eight concrete distinct concepts. -/
theorem C9_working_memory_witness :
    (["c1", "c2", "c3", "c4", "c5", "c6", "c7", "c8"] : List String).Nodup
    ∧ insert_concepts working_memory_capacity []
        ["c1", "c2", "c3", "c4", "c5", "c6", "c7", "c8"]
        = ["c8", "c7", "c6", "c5", "c4", "c3", "c2"]
    ∧ "c1" ∉ insert_concepts working_memory_capacity []
        ["c1", "c2", "c3", "c4", "c5", "c6", "c7", "c8"]
    ∧ (insert_concepts working_memory_capacity []
        ["c1", "c2", "c3", "c4", "c5", "c6", "c7", "c8"]).head? = some "c8" := by
  have h := C9_working_memory "c1" "c2" "c3" "c4" "c5" "c6" "c7" "c8" (by decide)
  exact ⟨by decide, h.1, h.2.1, h.2.2.2⟩

theorem content_mentions_focus_iff (c : Content) (f : String) :
    content_mentions_focus c f = true ↔
      (c.payload.concept = some f ∨ c.payload.target_concept = some f) := by
  simp [content_mentions_focus]

theorem content_repeats_iff (c : Content) (ra : List Action) :
    content_repeats c ra = true ↔
      ∃ a ∈ lastN 3 ra, a.type = some c.type
        ∧ a.concept = pyOrStr c.payload.concept c.payload.target_concept := by
  unfold content_repeats
  split
  case isTrue hemp =>
    rw [List.isEmpty_iff] at hemp
    subst hemp
    simp [lastN]
  case isFalse hemp =>
    simp [List.any_eq_true]

theorem scoredOf_pEx :
    scoredOf defaultConfig ctx0 (fun _ => 0) [pEx] = [pExScored] := by
  norm_num [scoredOf, score_proposals, score_proposals_aux, score_proposal,
    aggregate_proposals, mkBuckets, addToBuckets, aggregateGroup, mkProposal,
    pEx, ctx0, defaultConfig, defaultWeights, clamp, content_repeats, lastN,
    content_mentions_focus, emptyPayload, content_key, pExScored, min_def,
    max_def, List.foldl]

theorem cycleFrom_pEx :
    cycleFrom defaultConfig ctx0 (fun _ => 0) 0 [pEx] emptyState
      = { output := some cExIgnited, broadcasts := [cExIgnited],
          state := { current := some cExIgnited, history := [cExIgnited] } } := by
  simp only [cycleFrom, scoredOf_pEx]
  norm_num [pyMaxBy, List.foldl, scoreOrZero, pExScored, defaultConfig, ignite,
    emptyState, clamp, min_def, max_def, cExIgnited, pySliceLast]

/-- C2: with zero noise a proposal's score is exactly
clamp((0.40·evidence + 0.25·salience + 0.20·novelty + 0.15·urgency
+ fb − rp) · clamp(attention_gain, 0.5, 1.5), 0, 1.5), where fb = 0.10
exactly when the payload's `concept` or `target_concept` equals the current
focus (the focus, when set, being a non-empty concept name) and rp = 0.10
exactly when an identical (type, concept) pair occurs among the last 3
recent actions; and the worked single-proposal example scores 0.825 ≥ 0.75
and ignites. -/
theorem C2_scoring (ctx : Context) (p : Proposal)
    (hfocus : ctx.current_focus ≠ some "") :
    (∃ fb rp : ℚ,
      (score_proposal defaultWeights 0 ctx p).score
        = some (clamp ((2/5 * p.evidence + 1/4 * p.salience + 1/5 * p.novelty
            + 3/20 * p.urgency + fb - rp)
            * clamp (ctx.attention_gain.getD 1) (1/2) (3/2)) 0 (3/2))
      ∧ ((fb = 1/10 ∧ mentionsFocusProp ctx p) ∨ (fb = 0 ∧ ¬ mentionsFocusProp ctx p))
      ∧ ((rp = 1/10 ∧ repeatsProp ctx p) ∨ (rp = 0 ∧ ¬ repeatsProp ctx p)))
    ∧ (scoredOf defaultConfig ctx0 (fun _ => 0) [pEx]).map scoreOrZero = [33/40]
    ∧ (3/4 : ℚ) ≤ 33/40
    ∧ (∃ c, (cycleFrom defaultConfig ctx0 (fun _ => 0) 0 [pEx] emptyState).output
          = some c ∧ c.ignited = true ∧ c.activation = 33/40) := by
  refine ⟨?_, ?_, by norm_num, ?_⟩
  · refine ⟨(match ctx.current_focus with
      | some f => if f = "" then 0
          else if content_mentions_focus p.content f then 1/10 else 0
      | none => 0),
      (if content_repeats p.content ctx.recent_actions then 1/10 else 0),
      ?_, ?_, ?_⟩
    · simp only [score_proposal, defaultWeights, add_zero]
    · rcases hctx : ctx.current_focus with _ | f
      · refine Or.inr ⟨rfl, ?_⟩
        rintro ⟨f, hf, -⟩
        rw [hctx] at hf
        exact Option.noConfusion hf
      · have hf : f ≠ "" := by
          intro h
          exact hfocus (h ▸ hctx)
        by_cases hm : content_mentions_focus p.content f = true
        · refine Or.inl ⟨by simp [hf, hm], ?_⟩
          exact ⟨f, hctx, (content_mentions_focus_iff p.content f).mp hm⟩
        · refine Or.inr ⟨by simp [hf, hm], ?_⟩
          rintro ⟨f2, hf2, hcase⟩
          rw [hctx] at hf2
          injection hf2 with hf2
          subst hf2
          exact hm ((content_mentions_focus_iff p.content f).mpr hcase)
    · by_cases hr : content_repeats p.content ctx.recent_actions = true
      · refine Or.inl ⟨by rw [if_pos hr], ?_⟩
        obtain ⟨a, ha, h1, h2⟩ := (content_repeats_iff p.content ctx.recent_actions).mp hr
        exact ⟨a, ha, h1, h2⟩
      · refine Or.inr ⟨by rw [if_neg hr], ?_⟩
        rintro ⟨a, ha, h1, h2⟩
        exact hr ((content_repeats_iff p.content ctx.recent_actions).mpr ⟨a, ha, h1, h2⟩)
  · rw [scoredOf_pEx]
    rfl
  · exact ⟨cExIgnited, by rw [cycleFrom_pEx], rfl, rfl⟩

/-- C2 witness: the general scoring statement instantiated at the no-focus
context and the example proposal. -/
theorem C2_scoring_witness :
    ctx0.current_focus ≠ some ""
    ∧ (∃ fb rp : ℚ,
      (score_proposal defaultWeights 0 ctx0 pEx).score
        = some (clamp ((2/5 * pEx.evidence + 1/4 * pEx.salience
            + 1/5 * pEx.novelty + 3/20 * pEx.urgency + fb - rp)
            * clamp (ctx0.attention_gain.getD 1) (1/2) (3/2)) 0 (3/2))
      ∧ ((fb = 1/10 ∧ mentionsFocusProp ctx0 pEx) ∨ (fb = 0 ∧ ¬ mentionsFocusProp ctx0 pEx))
      ∧ ((rp = 1/10 ∧ repeatsProp ctx0 pEx) ∨ (rp = 0 ∧ ¬ repeatsProp ctx0 pEx))) := by
  have hne : ctx0.current_focus ≠ some "" := by
    intro h
    exact Option.noConfusion h
  exact ⟨hne, (C2_scoring ctx0 pEx hne).1⟩

theorem pySliceLast_getLast? (n : Nat) (xs : List α) (x : α) :
    (pySliceLast n (xs ++ [x])).getLast? = some x := by
  unfold pySliceLast
  split
  case isTrue h => exact List.getLast?_concat xs
  case isFalse h =>
    rw [List.drop_append_of_le_length (by simp; omega)]
    exact List.getLast?_concat _

theorem ignite_fields (cfg : Config) (now : ℚ) (st : WorkspaceState) (p : Proposal) :
    (ignite cfg now st p).1.ignited = true
    ∧ (ignite cfg now st p).1.activation = clamp (scoreOrZero p) 0 (3/2)
    ∧ (ignite cfg now st p).1.type = p.content.type
    ∧ (ignite cfg now st p).1.payload = p.content.payload
    ∧ (ignite cfg now st p).2.current = some (ignite cfg now st p).1
    ∧ ((ignite cfg now st p).2.history).getLast? = some (ignite cfg now st p).1 := by
  refine ⟨rfl, rfl, rfl, rfl, rfl, ?_⟩
  show (if (st.history ++ [(ignite cfg now st p).1]).length > cfg.history_limit
      then pySliceLast cfg.history_limit (st.history ++ [(ignite cfg now st p).1])
      else st.history ++ [(ignite cfg now st p).1]).getLast?
    = some (ignite cfg now st p).1
  split
  · exact pySliceLast_getLast? _ _ _
  · exact List.getLast?_concat _

theorem cycleFrom_ignite_eq (cfg : Config) (ctx : Context) (draw : Nat → ℚ)
    (now : ℚ) (proposals : List Proposal) (st : WorkspaceState) (w : Proposal)
    (hmax : pyMaxBy scoreOrZero (scoredOf cfg ctx draw proposals) = some w)
    (hth : cfg.ignition_threshold ≤ scoreOrZero w) :
    cycleFrom cfg ctx draw now proposals st
      = { output := some (ignite cfg now st w).1,
          broadcasts := [(ignite cfg now st w).1],
          state := (ignite cfg now st w).2 } := by
  simp only [cycleFrom, hmax, if_pos hth]

theorem cycleFrom_decay_eq (cfg : Config) (ctx : Context) (draw : Nat → ℚ)
    (now : ℚ) (proposals : List Proposal) (st : WorkspaceState)
    (hno : ∀ p ∈ scoredOf cfg ctx draw proposals,
      scoreOrZero p < cfg.ignition_threshold) :
    cycleFrom cfg ctx draw now proposals st
      = { output := (decay_and_persist cfg st).1,
          broadcasts := (decay_and_persist cfg st).1.toList,
          state := (decay_and_persist cfg st).2 } := by
  cases hmax : pyMaxBy scoreOrZero (scoredOf cfg ctx draw proposals) with
  | none => simp only [cycleFrom, hmax]
  | some w =>
    have hw := hno w (pyMaxBy_mem _ _ _ hmax)
    simp only [cycleFrom, hmax, if_neg (not_le.mpr hw)]

theorem decay_eq_none (cfg : Config) (st : WorkspaceState)
    (h : st.current = none) : decay_and_persist cfg st = (none, st) := by
  unfold decay_and_persist
  rw [h]

theorem decay_eq_below (cfg : Config) (st : WorkspaceState) (c0 : WorkspaceContent)
    (h : st.current = some c0)
    (hb : c0.activation * (if c0.ignited then cfg.ignited_decay_rate else cfg.decay_rate)
      < cfg.persistence_threshold) :
    decay_and_persist cfg st = (none, { st with current := none }) := by
  unfold decay_and_persist
  rw [h]
  simp only [if_pos hb]

theorem decay_eq_above (cfg : Config) (st : WorkspaceState) (c0 : WorkspaceContent)
    (h : st.current = some c0)
    (hb : ¬ c0.activation * (if c0.ignited then cfg.ignited_decay_rate else cfg.decay_rate)
      < cfg.persistence_threshold) :
    decay_and_persist cfg st
      = (some { c0 with
            activation := c0.activation *
              (if c0.ignited then cfg.ignited_decay_rate else cfg.decay_rate),
            ignited := false },
        { st with current := some { c0 with
            activation := c0.activation *
              (if c0.ignited then cfg.ignited_decay_rate else cfg.decay_rate),
            ignited := false } }) := by
  unfold decay_and_persist
  rw [h]
  simp only [if_neg hb]

theorem decay_not_ignited (cfg : Config) (st : WorkspaceState) (c : WorkspaceContent)
    (h : (decay_and_persist cfg st).1 = some c) : c.ignited = false := by
  rcases hcur : st.current with _ | c0
  · rw [decay_eq_none cfg st hcur] at h
    exact absurd h (by simp)
  · by_cases hb : c0.activation *
        (if c0.ignited then cfg.ignited_decay_rate else cfg.decay_rate)
      < cfg.persistence_threshold
    · rw [decay_eq_below cfg st c0 hcur hb] at h
      exact absurd h (by simp)
    · rw [decay_eq_above cfg st c0 hcur hb] at h
      simp only [Option.some.injEq] at h
      rw [← h]

theorem decay_current_bound (cfg : Config) (st : WorkspaceState) (c : WorkspaceContent)
    (h : (decay_and_persist cfg st).2.current = some c) :
    cfg.persistence_threshold ≤ c.activation := by
  rcases hcur : st.current with _ | c0
  · rw [decay_eq_none cfg st hcur] at h
    rw [hcur] at h
    exact absurd h (by simp)
  · by_cases hb : c0.activation *
        (if c0.ignited then cfg.ignited_decay_rate else cfg.decay_rate)
      < cfg.persistence_threshold
    · rw [decay_eq_below cfg st c0 hcur hb] at h
      exact absurd h (by simp)
    · rw [decay_eq_above cfg st c0 hcur hb] at h
      simp only [Option.some.injEq] at h
      rw [← h]
      exact le_of_not_lt hb

/-- C1: with zero noise, a cycle ignites exactly when some scored aggregated
proposal reaches the ignition threshold (equivalently, the maximum score
does); on ignition the winning proposal becomes a new ignited content whose
activation is its score, which replaces the current content and is appended
to the history; and when no scored proposal reaches the threshold the cycle
produces no ignited content. -/
theorem C1_ignition (cfg : Config) (ctx : Context) (draw : Nat → ℚ) (now : ℚ)
    (proposals : List Proposal) (st : WorkspaceState)
    (hdraw : ∀ i, draw i = 0) :
    ((∃ c, (cycleFrom cfg ctx draw now proposals st).output = some c ∧ c.ignited = true)
      ↔ ∃ p ∈ scoredOf cfg ctx draw proposals, cfg.ignition_threshold ≤ scoreOrZero p)
    ∧ (∀ w, pyMaxBy scoreOrZero (scoredOf cfg ctx draw proposals) = some w →
        cfg.ignition_threshold ≤ scoreOrZero w →
        ∃ c, (cycleFrom cfg ctx draw now proposals st).output = some c
          ∧ c.ignited = true
          ∧ c.activation = scoreOrZero w
          ∧ c.type = w.content.type
          ∧ c.payload = w.content.payload
          ∧ (cycleFrom cfg ctx draw now proposals st).state.current = some c
          ∧ ((cycleFrom cfg ctx draw now proposals st).state.history).getLast? = some c)
    ∧ ((∀ p ∈ scoredOf cfg ctx draw proposals,
          scoreOrZero p < cfg.ignition_threshold) →
        ∀ c, (cycleFrom cfg ctx draw now proposals st).output = some c →
          c.ignited = false) := by
  have hwin : ∀ w, pyMaxBy scoreOrZero (scoredOf cfg ctx draw proposals) = some w →
      cfg.ignition_threshold ≤ scoreOrZero w →
      ∃ c, (cycleFrom cfg ctx draw now proposals st).output = some c
        ∧ c.ignited = true
        ∧ c.activation = scoreOrZero w
        ∧ c.type = w.content.type
        ∧ c.payload = w.content.payload
        ∧ (cycleFrom cfg ctx draw now proposals st).state.current = some c
        ∧ ((cycleFrom cfg ctx draw now proposals st).state.history).getLast? = some c := by
    intro w hmax hth
    rw [cycleFrom_ignite_eq cfg ctx draw now proposals st w hmax hth]
    obtain ⟨hig, hact, hty, hpl, hcur, hlast⟩ := ignite_fields cfg now st w
    refine ⟨(ignite cfg now st w).1, rfl, hig, ?_, hty, hpl, hcur, hlast⟩
    rw [hact]
    have hmem := pyMaxBy_mem _ _ _ hmax
    obtain ⟨h0, h1⟩ := scoreOrZero_bounds cfg.weights ctx draw
      (aggregate_proposals proposals) w hmem
    exact clamp_eq_self _ _ _ h0 h1
  have hnoig : (∀ p ∈ scoredOf cfg ctx draw proposals,
      scoreOrZero p < cfg.ignition_threshold) →
      ∀ c, (cycleFrom cfg ctx draw now proposals st).output = some c →
        c.ignited = false := by
    intro hno c hc
    rw [cycleFrom_decay_eq cfg ctx draw now proposals st hno] at hc
    exact decay_not_ignited cfg st c hc
  refine ⟨?_, hwin, hnoig⟩
  constructor
  · intro hex
    by_contra hnotex
    push_neg at hnotex
    obtain ⟨c, hc, hcig⟩ := hex
    rw [hnoig (fun p hp => hnotex p hp) c hc] at hcig
    exact Bool.false_ne_true hcig
  · rintro ⟨p, hp, hpth⟩
    cases hmax : pyMaxBy scoreOrZero (scoredOf cfg ctx draw proposals) with
    | none =>
      rw [pyMaxBy_eq_none_iff] at hmax
      rw [hmax] at hp
      exact absurd hp (List.not_mem_nil p)
    | some w =>
      have hwth : cfg.ignition_threshold ≤ scoreOrZero w :=
        le_trans hpth (pyMaxBy_le _ _ _ hmax p hp)
      obtain ⟨c, hc, hcig, -⟩ := hwin w hmax hwth
      exact ⟨c, hc, hcig⟩

/-- C1 witness: the ignition equivalence at the concrete worked example. -/
theorem C1_ignition_witness :
    (∃ c, (cycleFrom defaultConfig ctx0 (fun _ => 0) 0 [pEx] emptyState).output
        = some c ∧ c.ignited = true)
    ↔ ∃ p ∈ scoredOf defaultConfig ctx0 (fun _ => 0) [pEx],
        defaultConfig.ignition_threshold ≤ scoreOrZero p :=
  (C1_ignition defaultConfig ctx0 (fun _ => 0) 0 [pEx] emptyState (fun _ => rfl)).1

/-- C3: in a cycle without a new ignition and with current content `c`, the
activation is multiplied by the ignited decay rate if `c` was ignited last
cycle and by the plain decay rate otherwise; if the decayed activation is
below the persistence threshold the content is cleared, nothing is broadcast
and nothing is returned; otherwise the content persists un-ignited and is
exactly the returned and broadcast value. -/
theorem C3_decay_persist (cfg : Config) (ctx : Context) (draw : Nat → ℚ)
    (now : ℚ) (proposals : List Proposal) (st : WorkspaceState)
    (c : WorkspaceContent) (hcur : st.current = some c)
    (hno : ∀ p ∈ scoredOf cfg ctx draw proposals,
      scoreOrZero p < cfg.ignition_threshold) :
    (c.activation * (if c.ignited then cfg.ignited_decay_rate else cfg.decay_rate)
        < cfg.persistence_threshold →
      (cycleFrom cfg ctx draw now proposals st).output = none
      ∧ (cycleFrom cfg ctx draw now proposals st).broadcasts = []
      ∧ (cycleFrom cfg ctx draw now proposals st).state.current = none)
    ∧ (cfg.persistence_threshold ≤
        c.activation * (if c.ignited then cfg.ignited_decay_rate else cfg.decay_rate) →
      (cycleFrom cfg ctx draw now proposals st).output
          = some { c with
              activation := c.activation *
                (if c.ignited then cfg.ignited_decay_rate else cfg.decay_rate),
              ignited := false }
      ∧ (cycleFrom cfg ctx draw now proposals st).broadcasts
          = [{ c with
              activation := c.activation *
                (if c.ignited then cfg.ignited_decay_rate else cfg.decay_rate),
              ignited := false }]
      ∧ (cycleFrom cfg ctx draw now proposals st).state.current
          = some { c with
              activation := c.activation *
                (if c.ignited then cfg.ignited_decay_rate else cfg.decay_rate),
              ignited := false }) := by
  rw [cycleFrom_decay_eq cfg ctx draw now proposals st hno]
  constructor
  · intro hb
    rw [decay_eq_below cfg st c hcur hb]
    exact ⟨rfl, rfl, rfl⟩
  · intro hb
    rw [decay_eq_above cfg st c hcur (not_lt.mpr hb)]
    exact ⟨rfl, rfl, rfl⟩

/-- C3 witness: an ignited content with activation 1 under default rates
persists un-ignited with activation 0.95 when no proposals arrive. -/
theorem C3_decay_persist_witness :
    stActive.current = some contentActive
    ∧ defaultConfig.persistence_threshold ≤
        contentActive.activation * (if contentActive.ignited
          then defaultConfig.ignited_decay_rate else defaultConfig.decay_rate)
    ∧ (cycleFrom defaultConfig ctx0 (fun _ => 0) 0 [] stActive).output
        = some { contentActive with
            activation := contentActive.activation * (if contentActive.ignited
              then defaultConfig.ignited_decay_rate else defaultConfig.decay_rate),
            ignited := false } := by
  have hno : ∀ p ∈ scoredOf defaultConfig ctx0 (fun _ => 0) [],
      scoreOrZero p < defaultConfig.ignition_threshold := by
    intro p hp
    rw [show scoredOf defaultConfig ctx0 (fun _ => 0) [] = [] from rfl] at hp
    exact absurd hp (List.not_mem_nil p)
  have hb : defaultConfig.persistence_threshold ≤
      contentActive.activation * (if contentActive.ignited
        then defaultConfig.ignited_decay_rate else defaultConfig.decay_rate) := by
    norm_num [contentActive, defaultConfig]
  have h := C3_decay_persist defaultConfig ctx0 (fun _ => 0) 0 [] stActive
    contentActive rfl hno
  exact ⟨rfl, hb, (h.2 hb).1⟩

/-- C10: provided the persistence threshold does not exceed the ignition
threshold (true of the defaults 0.4 and 0.75), a completed cycle never
leaves current content whose activation is below the persistence
threshold. -/
theorem C10_activation_invariant (cfg : Config) (ctx : Context) (draw : Nat → ℚ)
    (now : ℚ) (proposals : List Proposal) (st : WorkspaceState)
    (hth : cfg.persistence_threshold ≤ cfg.ignition_threshold) :
    ∀ c, (cycleFrom cfg ctx draw now proposals st).state.current = some c →
      cfg.persistence_threshold ≤ c.activation := by
  intro c hc
  cases hmax : pyMaxBy scoreOrZero (scoredOf cfg ctx draw proposals) with
  | none =>
    have hno : ∀ p ∈ scoredOf cfg ctx draw proposals,
        scoreOrZero p < cfg.ignition_threshold := by
      rw [pyMaxBy_eq_none_iff] at hmax
      rw [hmax]
      intro p hp
      exact absurd hp (List.not_mem_nil p)
    rw [cycleFrom_decay_eq cfg ctx draw now proposals st hno] at hc
    exact decay_current_bound cfg st c hc
  | some w =>
    by_cases hwth : cfg.ignition_threshold ≤ scoreOrZero w
    · rw [cycleFrom_ignite_eq cfg ctx draw now proposals st w hmax hwth] at hc
      obtain ⟨hig, hact, hty, hpl, hcur, hlast⟩ := ignite_fields cfg now st w
      rw [hcur] at hc
      simp only [Option.some.injEq] at hc
      rw [← hc, hact]
      have hmem := pyMaxBy_mem _ _ _ hmax
      obtain ⟨h0, h1⟩ := scoreOrZero_bounds cfg.weights ctx draw
        (aggregate_proposals proposals) w hmem
      rw [clamp_eq_self _ _ _ h0 h1]
      exact le_trans hth hwth
    · have hno : ∀ p ∈ scoredOf cfg ctx draw proposals,
          scoreOrZero p < cfg.ignition_threshold := by
        intro p hp
        exact lt_of_le_of_lt (pyMaxBy_le _ _ _ hmax p hp) (not_le.mp hwth)
      rw [cycleFrom_decay_eq cfg ctx draw now proposals st hno] at hc
      exact decay_current_bound cfg st c hc

/-- C10 witness: the worked example's ignited content has activation
0.825 ≥ 0.4. -/
theorem C10_activation_invariant_witness :
    defaultConfig.persistence_threshold ≤ defaultConfig.ignition_threshold
    ∧ defaultConfig.persistence_threshold ≤ cExIgnited.activation := by
  refine ⟨by norm_num [defaultConfig], ?_⟩
  refine C10_activation_invariant defaultConfig ctx0 (fun _ => 0) 0 [pEx]
    emptyState (by norm_num [defaultConfig]) cExIgnited ?_
  rw [cycleFrom_pEx]

theorem mem_insertKey (ks : List (String × Payload)) (k k2 : String × Payload) :
    k2 ∈ insertKey ks k ↔ k2 ∈ ks ∨ k2 = k := by
  unfold insertKey
  split
  case isTrue h =>
    constructor
    · exact Or.inl
    · rintro (h2 | rfl)
      · exact h2
      · exact h
  case isFalse h =>
    simp [List.mem_append]

theorem bucketKeys_aux_mem (ps : List Proposal) (acc : List (String × Payload))
    (k : String × Payload) :
    k ∈ ps.foldl (fun ks p => insertKey ks (content_key p.content)) acc
      ↔ k ∈ acc ∨ ∃ p ∈ ps, content_key p.content = k := by
  induction ps generalizing acc with
  | nil => simp
  | cons p ps ih =>
    simp only [List.foldl_cons]
    rw [ih, mem_insertKey]
    simp only [List.mem_cons]
    constructor
    · rintro ((h | h) | ⟨q, hq, hk⟩)
      · exact Or.inl h
      · exact Or.inr ⟨p, Or.inl rfl, h.symm⟩
      · exact Or.inr ⟨q, Or.inr hq, hk⟩
    · rintro (h | ⟨q, (rfl | hq), hk⟩)
      · exact Or.inl (Or.inl h)
      · exact Or.inl (Or.inr hk.symm)
      · exact Or.inr ⟨q, hq, hk⟩

theorem mem_bucketKeys (ps : List Proposal) (k : String × Payload) :
    k ∈ bucketKeys ps ↔ ∃ p ∈ ps, content_key p.content = k := by
  rw [bucketKeys, bucketKeys_aux_mem]
  simp

theorem bucketKeys_append (ps : List Proposal) (p : Proposal) :
    bucketKeys (ps ++ [p]) = insertKey (bucketKeys ps) (content_key p.content) := by
  unfold bucketKeys
  rw [List.foldl_append]
  rfl

theorem mkBuckets_append (ps : List Proposal) (p : Proposal) :
    mkBuckets (ps ++ [p]) = addToBuckets (mkBuckets ps) p := by
  unfold mkBuckets
  rw [List.foldl_append]
  rfl

theorem groupOf_append (ps : List Proposal) (p : Proposal) (k : String × Payload) :
    groupOf (ps ++ [p]) k
      = groupOf ps k ++ if content_key p.content = k then [p] else [] := by
  unfold groupOf
  rw [List.filter_append]
  congr 1
  by_cases h : content_key p.content = k
  · simp [h]
  · simp [h]

theorem mkBuckets_eq (ps : List Proposal) :
    mkBuckets ps = (bucketKeys ps).map (fun k => (k, groupOf ps k)) := by
  induction ps using List.reverseRecOn with
  | nil => rfl
  | append_singleton ps p ih =>
    rw [mkBuckets_append, bucketKeys_append, ih]
    unfold addToBuckets
    by_cases hmem : content_key p.content ∈ bucketKeys ps
    · have hany : ((bucketKeys ps).map (fun k => (k, groupOf ps k))).any
          (fun b => decide (b.1 = content_key p.content)) = true := by
        rw [List.any_eq_true]
        exact ⟨(content_key p.content, groupOf ps (content_key p.content)),
          List.mem_map_of_mem _ hmem, by simp⟩
      rw [if_pos hany]
      have hins : insertKey (bucketKeys ps) (content_key p.content) = bucketKeys ps := by
        unfold insertKey
        rw [if_pos hmem]
      rw [hins, List.map_map]
      refine List.map_eq_map_iff.mpr ?_
      intro k hk
      simp only [Function.comp_apply]
      by_cases hkp : k = content_key p.content
      · subst hkp
        rw [if_pos rfl, groupOf_append, if_pos rfl]
      · rw [if_neg hkp, groupOf_append, if_neg (Ne.symm hkp), List.append_nil]
    · have hany : ((bucketKeys ps).map (fun k => (k, groupOf ps k))).any
          (fun b => decide (b.1 = content_key p.content)) = false := by
        rw [List.any_eq_false]
        rintro b hb
        obtain ⟨k, hk, rfl⟩ := List.mem_map.mp hb
        simp only [decide_eq_true_eq]
        intro hkk
        exact hmem (hkk ▸ hk)
      rw [Bool.eq_false_iff] at hany
      rw [if_neg hany]
      have hins : insertKey (bucketKeys ps) (content_key p.content)
          = bucketKeys ps ++ [content_key p.content] := by
        unfold insertKey
        rw [if_neg hmem]
      rw [hins, List.map_append]
      congr 1
      · refine List.map_eq_map_iff.mpr ?_
        intro k hk
        have hne : content_key p.content ≠ k := fun h => hmem (by rw [h]; exact hk)
        rw [groupOf_append, if_neg hne, List.append_nil]
      · simp only [List.map_cons, List.map_nil]
        have hnil : groupOf ps (content_key p.content) = [] := by
          refine List.filter_eq_nil_iff.mpr ?_
          intro q hq
          simp only [decide_eq_true_eq]
          intro hqk
          exact hmem ((mem_bucketKeys ps (content_key p.content)).mpr ⟨q, hq, hqk⟩)
        rw [groupOf_append, if_pos rfl, hnil, List.nil_append]

/-- C4: aggregation groups the collected proposals by (content type,
canonical payload) key; each group's output proposal sums evidence (clamped
to [0,1]), averages salience, novelty and urgency, concatenates the members'
source names in order, and carries the first member's content; two
same-key members with evidence 0.6 each yield evidence exactly 1.0. -/
theorem C4_aggregation (ps : List Proposal) :
    (aggregate_proposals ps
      = (bucketKeys ps).map (fun k => aggregateGroup (groupOf ps k)))
    ∧ (∀ k ∈ bucketKeys ps, ∃ p0 rest, groupOf ps k = p0 :: rest
        ∧ (aggregateGroup (groupOf ps k)).evidence
            = clamp (((groupOf ps k).map Proposal.evidence).sum) 0 1
        ∧ (aggregateGroup (groupOf ps k)).salience
            = ((groupOf ps k).map Proposal.salience).sum / (groupOf ps k).length
        ∧ (aggregateGroup (groupOf ps k)).novelty
            = ((groupOf ps k).map Proposal.novelty).sum / (groupOf ps k).length
        ∧ (aggregateGroup (groupOf ps k)).urgency
            = ((groupOf ps k).map Proposal.urgency).sum / (groupOf ps k).length
        ∧ (aggregateGroup (groupOf ps k)).sources
            = (groupOf ps k).map Proposal.source
        ∧ (aggregateGroup (groupOf ps k)).content = p0.content)
    ∧ (aggregate_proposals [pDupA, pDupB]).map Proposal.evidence = [1] := by
  refine ⟨?_, ?_, ?_⟩
  · unfold aggregate_proposals
    rw [mkBuckets_eq, List.map_map]
    rfl
  · intro k hk
    obtain ⟨p, hp, hpk⟩ := (mem_bucketKeys ps k).mp hk
    have hpg : p ∈ groupOf ps k := by
      unfold groupOf
      rw [List.mem_filter]
      exact ⟨hp, by simp [hpk]⟩
    cases hg : groupOf ps k with
    | nil =>
      rw [hg] at hpg
      exact absurd hpg (List.not_mem_nil p)
    | cons p0 rest =>
      exact ⟨p0, rest, rfl, rfl, rfl, rfl, rfl, rfl, rfl⟩
  · norm_num [aggregate_proposals, mkBuckets, addToBuckets, aggregateGroup,
      pDupA, pDupB, mkProposal, content_key, clamp, emptyPayload, min_def,
      max_def, List.foldl]

/-- C4 witness: the two same-key example proposals form one group whose
output concatenates both source names. -/
theorem C4_aggregation_witness :
    ("explore", emptyPayload) ∈ bucketKeys [pDupA, pDupB]
    ∧ (aggregateGroup (groupOf [pDupA, pDupB] ("explore", emptyPayload))).sources
        = (groupOf [pDupA, pDupB] ("explore", emptyPayload)).map Proposal.source
    ∧ (aggregate_proposals [pDupA, pDupB]).map Proposal.evidence = [1] := by
  have h := C4_aggregation [pDupA, pDupB]
  obtain ⟨p0, rest, hg, he, hs, hn, hu, hsrc, hc⟩ :=
    h.2.1 ("explore", emptyPayload) (by decide)
  exact ⟨by decide, hsrc, h.2.2⟩

end Hizawye
